import Mathlib

/-!
Verification development for the vidler job-orchestration core.

Shallow embedding of `source/core/errors.ts`, `source/core/worker-pool.ts`,
`source/core/strategy.ts`, `source/core/progress-parser.ts`,
`source/core/runtime.ts`, `source/core/binary-manager.ts` and
`source/strategies/yt-dlp.ts`.  JavaScript strings are modelled as
`List Char`, JavaScript numbers as `ℚ` (with `Option ℚ` standing for
`number | undefined`, `none` also covering NaN/Infinity results which every
call site in the source discards via `Number.isFinite`), promises as pure
values, and ambient effects (wall clock, file system, network, PATH) as
explicit environment records.
-/

namespace Vidler

/-! ## JavaScript string primitives -/

/-- Characters treated as whitespace by JavaScript `String.prototype.trim`
(ASCII subset; the source never feeds non-ASCII whitespace). -/
def jsWhitespace (c : Char) : Bool :=
  c = ' ' || c = '\t' || c = '\n' || c = '\r' || c = '\x0b' || c = '\x0c'

/-- JavaScript `trim`: strip whitespace from both ends. -/
def trimChars (l : List Char) : List Char :=
  ((l.dropWhile jsWhitespace).reverse.dropWhile jsWhitespace).reverse

/-- JavaScript `toLowerCase` on the ASCII strings the source manipulates. -/
def lowerChars (l : List Char) : List Char :=
  l.map Char.toLower

/-- JavaScript `String.prototype.includes`. -/
def containsSub (needle : List Char) : List Char → Bool
  | [] => needle.isPrefixOf ([] : List Char)
  | c :: rest => needle.isPrefixOf (c :: rest) || containsSub needle rest

/-- The suffix of `haystack` after the first occurrence of `needle`:
JavaScript `haystack.slice(haystack.indexOf(needle) + needle.length)`,
with `none` when `indexOf` returns `-1`. -/
def afterFirst (needle : List Char) : List Char → Option (List Char)
  | [] => if needle.isPrefixOf ([] : List Char) then some [] else none
  | c :: rest =>
    if needle.isPrefixOf (c :: rest) then some ((c :: rest).drop needle.length)
    else afterFirst needle rest

/-- JavaScript `String.prototype.split(sep)` for a one-character separator:
splits at every occurrence, keeping empty pieces. -/
def splitOnChar (sep : Char) : List Char → List (List Char)
  | [] => [[]]
  | c :: rest =>
    let tailPieces := splitOnChar sep rest
    if c = sep then [] :: tailPieces
    else
      match tailPieces with
      | [] => [[c]]
      | piece :: more => (c :: piece) :: more

/-- JavaScript `startsWith`. -/
def startsWith (pre l : List Char) : Bool :=
  pre.isPrefixOf l

/-- JavaScript `endsWith`. -/
def endsWith (suf l : List Char) : Bool :=
  suf.reverse.isPrefixOf l.reverse

def isDigitChar (c : Char) : Bool :=
  '0' ≤ c && c ≤ '9'

def digitVal (c : Char) : ℕ :=
  c.toNat - '0'.toNat

/-- Value of a digit run read as a natural number. -/
def digitsVal (l : List Char) : ℕ :=
  l.foldl (fun acc c => acc * 10 + digitVal c) 0

/-- Value of a digit run read as the fractional part after a decimal point. -/
def fracVal (l : List Char) : ℚ :=
  (digitsVal l : ℚ) / (10 : ℚ) ^ l.length

/-! ## JavaScript `Number(string)` on decimal literals

The source only ever feeds `Number` either regex-extracted decimal tokens or
raw `|`-delimited fields.  This model parses optional sign, decimal digits
with an optional fractional part, and an optional exponent; the empty
(post-trim) string is `0` as in JavaScript.  Inputs outside this fragment
(hex literals, `Infinity`, garbage) yield `none`, which agrees with every
call site in the source because each one discards non-finite results via
`Number.isFinite` immediately after conversion. -/

/-- The optional exponent sign and the remainder after it. -/
def expSign (l : List Char) : ℤ × List Char :=
  if l.head? = some '+' then (1, l.tail)
  else if l.head? = some '-' then (-1, l.tail)
  else (1, l)

def parseExponentPart (mantissa : ℚ) (l : List Char) : Option ℚ :=
  if (expSign l).2.takeWhile isDigitChar = [] ∨ (expSign l).2.dropWhile isDigitChar ≠ [] then
    none
  else
    some (mantissa *
      (10 : ℚ) ^ ((expSign l).1 * (digitsVal ((expSign l).2.takeWhile isDigitChar) : ℤ)))

def parseMantissaTail (intPart : List Char) (rest : List Char) : Option ℚ :=
  match rest with
  | [] => if intPart = [] then none else some (digitsVal intPart : ℚ)
  | c :: rest2 =>
    if c = '.' then
      if intPart = [] ∧ rest2.takeWhile isDigitChar = [] then none
      else
        match rest2.dropWhile isDigitChar with
        | [] => some ((digitsVal intPart : ℚ) + fracVal (rest2.takeWhile isDigitChar))
        | e :: rest4 =>
          if e = 'e' ∨ e = 'E' then
            parseExponentPart ((digitsVal intPart : ℚ) + fracVal (rest2.takeWhile isDigitChar))
              rest4
          else none
    else if (c = 'e' ∨ c = 'E') ∧ intPart ≠ [] then
      parseExponentPart (digitsVal intPart : ℚ) rest2
    else none

def parseUnsignedNumber (l : List Char) : Option ℚ :=
  parseMantissaTail (l.takeWhile isDigitChar) (l.dropWhile isDigitChar)

/-- JavaScript `Number(s)` restricted to finite decimal results:
`none` models NaN (and the non-finite values every caller rejects). -/
def jsNumber (l : List Char) : Option ℚ :=
  if trimChars l = [] then some 0
  else if (trimChars l).head? = some '-' then
    (parseUnsignedNumber (trimChars l).tail).map (fun q => -q)
  else if (trimChars l).head? = some '+' then parseUnsignedNumber (trimChars l).tail
  else parseUnsignedNumber (trimChars l)

/-! ## Domain types (`source/core/types.ts`) -/

inductive ProviderKind where
  | youtube | tiktok | facebook | generic
  deriving DecidableEq, Repr

inductive JobStatus where
  | queued | preparing | running | retrying | completed | failed
  deriving DecidableEq, Repr

structure DownloadRequest where
  url : String
  quality : String
  outputDir : String
  filenameTemplate : Option String
  retries : ℕ
  timeoutSec : Option ℕ
  deriving DecidableEq, Repr

structure DownloadJob where
  id : String
  request : DownloadRequest
  detectedProvider : ProviderKind
  deriving DecidableEq, Repr

structure DownloadProgress where
  status : JobStatus
  percent : Option ℚ := none
  downloadedBytes : Option ℚ := none
  totalBytes : Option ℚ := none
  speedBps : Option ℚ := none
  etaSec : Option ℚ := none
  message : Option String := none
  deriving DecidableEq, Repr

/-- `DownloadResult`; `durationMs` in the source is a wall-clock difference
(`Date.now() - startedAt`), abstracted here as an uninterpreted value. -/
structure DownloadResult where
  jobId : String
  success : Bool
  provider : ProviderKind
  filePath : Option String := none
  durationMs : ℤ := 0
  attempts : ℕ
  errorMessage : Option String := none
  deriving DecidableEq, Repr

/-! ## Error taxonomy (`source/core/errors.ts`) -/

/-- The `VidlerError` class hierarchy: `InvalidInputError` (exit code 2,
never retryable), `DependencyError` (exit code 3, never retryable),
`DownloadError` (exit code 1, retryable flag chosen at construction). -/
inductive VidlerError where
  | invalidInput (message : String)
  | dependencyError (message : String)
  | downloadError (message : String) (retryable : Bool) (stderrSnippet : Option String)
  deriving DecidableEq, Repr

def VidlerError.message : VidlerError → String
  | .invalidInput m => m
  | .dependencyError m => m
  | .downloadError m _ _ => m

def VidlerError.retryable : VidlerError → Bool
  | .invalidInput _ => false
  | .dependencyError _ => false
  | .downloadError _ r _ => r

def VidlerError.exitCode : VidlerError → ℕ
  | .invalidInput _ => 2
  | .dependencyError _ => 3
  | .downloadError _ _ _ => 1

/-- A JavaScript value reaching a `catch` site: a `VidlerError`, some other
`Error` instance (only its `message` is inspected), or a non-`Error` throw. -/
inductive JsThrown where
  | vidler (e : VidlerError)
  | plainError (message : String)
  | nonError
  deriving DecidableEq, Repr

/-- The transient-signal substrings of `isRetryableError` (`errors.ts:44-53`). -/
def retryablePatterns : List (List Char) :=
  ["timeout".data, "timed out".data, "temporary failure".data,
   "connection reset".data, "econnreset".data, "econnrefused".data,
   "5xx".data, "dns".data]

/-- `isRetryableError` (`errors.ts:34-56`): a `VidlerError` answers its own
flag; a non-`Error` value is not retryable; any other `Error` is retryable
exactly when its lowercased message contains one of the transient signals. -/
def isRetryableError : JsThrown → Bool
  | .vidler e => e.retryable
  | .nonError => false
  | .plainError msg =>
    retryablePatterns.any fun pat => containsSub pat (lowerChars msg.data)

/-- `toExitCode` (`errors.ts:58-64`). -/
def toExitCode : JsThrown → ℕ
  | .vidler e => e.exitCode
  | _ => 1

/-- The retryability predicate as the spec sentence words it (for the C2
refinement comparison): retryable iff explicitly flagged retryable by its
origin, or the message text carries a transient signal. -/
def specRetryable (v : JsThrown) : Bool :=
  (match v with
   | .vidler e => e.retryable
   | _ => false) ||
  (match v with
   | .vidler e => retryablePatterns.any fun pat => containsSub pat (lowerChars e.message.data)
   | .plainError msg => retryablePatterns.any fun pat => containsSub pat (lowerChars msg.data)
   | .nonError => false)

/-! ## Backoff (`source/core/worker-pool.ts:132-137`)

`#computeBackoff` reads `base = options.baseBackoffMs ?? 500`,
`factor = 2 ** Math.max(0, attempt - 1)`,
`jitter = 0.8 + Math.random() * 0.4`, and returns
`Math.round(base * factor * jitter)`.  `Math.random()` is modelled as an
explicit sample `r ∈ [0,1)`; `Math.round x = ⌊x + 1/2⌋`, which is
Mathlib's `round` on `ℚ`. -/

def computeBackoff (base : ℚ) (attempt : ℕ) (r : ℚ) : ℤ :=
  round (base * (2 : ℚ) ^ (attempt - 1) * (4 / 5 + r * (2 / 5)))

/-- The `baseBackoffMs ?? 500` default applied in the `WorkerPool`
constructor (`worker-pool.ts:19-25`). -/
def resolveBaseBackoff (baseBackoffMs : Option ℚ) : ℚ :=
  baseBackoffMs.getD 500

/-! ## Worker pool (`source/core/worker-pool.ts`)

`pool.run` drives `#runWithRetry` per job; the job-execution callback is
`RuntimeJobRunner.runJob` (`runtime.ts`), which resolves a strategy,
prepares and downloads, and returns the strategy result with
`attempts` overwritten by the current attempt number.  One attempt's
observable behaviour is abstracted as an `AttemptOutcome` drawn from an
environment indexed by attempt number: either the result the runner's
promise resolves with, or the value it rejects with.  `Math.random` samples
are likewise drawn from the environment. -/

structure WorkerPoolOptions where
  concurrency : ℕ
  retries : ℕ
  baseBackoffMs : Option ℚ := none
  deriving Repr

inductive AttemptOutcome where
  | success (result : DownloadResult)
  | failure (error : JsThrown)

structure JobEnv where
  outcome : ℕ → AttemptOutcome
  progress : ℕ → List DownloadProgress
  rand : ℕ → ℚ

inductive WorkerEvent where
  | jobStarted (jobId : String) (provider : ProviderKind) (attempt : ℕ)
  | jobProgress (jobId : String) (progress : DownloadProgress)
  | jobRetry (jobId : String) (attempt : ℕ) (reason : String) (nextDelayMs : ℤ)
  | jobCompleted (jobId : String) (result : DownloadResult)
  | jobFailed (jobId : String) (result : DownloadResult)
  deriving DecidableEq, Repr

/-- `RuntimeJobRunner.runJob` returns `{ ...result, attempts: attempt }`. -/
def runnerResult (r : DownloadResult) (attempt : ℕ) : DownloadResult :=
  { r with attempts := attempt }

/-- Events emitted while one attempt of `runJob` is in flight: the
`preparing` progress emitted on entry, then the progress stream the
strategy's `download` forwards (`jobLog` passthrough, enabled only by
`--show-log`, carries no lifecycle information and is omitted). -/
def runJobEvents (env : JobEnv) (job : DownloadJob) (attempt : ℕ) : List WorkerEvent :=
  WorkerEvent.jobProgress job.id { status := .preparing } ::
    (env.progress attempt).map (fun p => WorkerEvent.jobProgress job.id p)

/-- `error instanceof Error ? error.message : "Unknown download failure"`. -/
def reasonOf : JsThrown → String
  | .vidler e => e.message
  | .plainError m => m
  | .nonError => "Unknown download failure"

/-- The loop body of `#runWithRetry` (`worker-pool.ts:72-130`), structured
on the number of loop iterations left (`remaining = maxAttempts - attempt + 1`);
the `remaining = 0` base case is the post-loop fallback return
(`worker-pool.ts:122-129`). -/
def runWithRetryAux (opts : WorkerPoolOptions) (env : JobEnv) (job : DownloadJob)
    (maxAttempts : ℕ) : ℕ → ℕ → List WorkerEvent × DownloadResult
  | _attempt, 0 =>
    ([], { jobId := job.id, success := false, provider := job.detectedProvider,
           attempts := maxAttempts,
           errorMessage := some "Unexpected worker pool state" })
  | attempt, remaining + 1 =>
    let startedEv := WorkerEvent.jobStarted job.id job.detectedProvider attempt
    let attemptEvs := runJobEvents env job attempt
    match env.outcome attempt with
    | .success r =>
      let result := runnerResult r attempt
      (startedEv :: attemptEvs ++ [WorkerEvent.jobCompleted job.id result], result)
    | .failure e =>
      let retryable := isRetryableError e
      let isLastAttempt := decide (maxAttempts ≤ attempt)
      let reason := reasonOf e
      if retryable && !isLastAttempt then
        let nextDelayMs :=
          computeBackoff (resolveBaseBackoff opts.baseBackoffMs) attempt (env.rand attempt)
        let rest := runWithRetryAux opts env job maxAttempts (attempt + 1) remaining
        (startedEv :: attemptEvs ++
           (WorkerEvent.jobRetry job.id attempt reason nextDelayMs :: rest.1), rest.2)
      else
        let result : DownloadResult :=
          { jobId := job.id, success := false, provider := job.detectedProvider,
            attempts := attempt, errorMessage := some reason }
        (startedEv :: attemptEvs ++ [WorkerEvent.jobFailed job.id result], result)

/-- `maxAttempts = Math.max(1, retries + 1)` (`worker-pool.ts:77`). -/
def maxAttemptsOf (opts : WorkerPoolOptions) : ℕ :=
  max 1 (opts.retries + 1)

/-- `#runWithRetry`: attempts start at 1 and run while `attempt ≤ maxAttempts`. -/
def runWithRetry (opts : WorkerPoolOptions) (env : JobEnv) (job : DownloadJob) :
    List WorkerEvent × DownloadResult :=
  runWithRetryAux opts env job (maxAttemptsOf opts) 1 (maxAttemptsOf opts)

/-- `pool.run`: each queued job is popped exactly once and run to terminal
state.  The model drains the queue front-to-back, which is the exact
behaviour for one worker (the CLI forces `concurrency = 1`); with more
workers only the interleaving across jobs differs, never a job's own
event subsequence. -/
def poolRun (opts : WorkerPoolOptions) (envOf : DownloadJob → JobEnv) :
    List DownloadJob → List WorkerEvent × List DownloadResult
  | [] => ([], [])
  | j :: rest =>
    let this := runWithRetry opts (envOf j) j
    let more := poolRun opts envOf rest
    (this.1 ++ more.1, this.2 :: more.2)

def isStartedEvent : WorkerEvent → Bool
  | .jobStarted _ _ _ => true
  | _ => false

def isTerminalEvent : WorkerEvent → Bool
  | .jobCompleted _ _ => true
  | .jobFailed _ _ => true
  | _ => false

def countStarted (evs : List WorkerEvent) : ℕ :=
  evs.countP fun e => isStartedEvent e

def countTerminal (evs : List WorkerEvent) : ℕ :=
  evs.countP fun e => isTerminalEvent e

/-! ## Strategy contract and registry (`source/core/strategy.ts`)

Registry resolution reads only the pure `canHandle` predicate; the
effectful `prepare`/`download` members play no part in resolution and are
modelled where needed by the worker-pool attempt environment. -/

structure DownloadStrategy where
  name : String
  canHandle : DownloadJob → Bool

/-- `StrategyRegistry.resolve` (`strategy.ts:30-38`). -/
def StrategyRegistry.resolve' (strategies : List DownloadStrategy)
    (fallback : DownloadStrategy) (job : DownloadJob) : DownloadStrategy :=
  match strategies.find? (fun s => s.canHandle job) with
  | some s => s
  | none => fallback

structure StrategyRegistry where
  strategies : List DownloadStrategy
  fallback : DownloadStrategy

def StrategyRegistry.resolve (reg : StrategyRegistry) (job : DownloadJob) :
    DownloadStrategy :=
  StrategyRegistry.resolve' reg.strategies reg.fallback job

/-- `bindStrategyToProviders` (`strategy.ts:41-60`): the bound adapter
handles exactly the jobs whose detected provider is in `providers`. -/
def bindStrategyToProviders (_base : DownloadStrategy) (providers : List ProviderKind)
    (name : String) : DownloadStrategy :=
  { name := name, canHandle := fun job => providers.contains job.detectedProvider }

/-! ## Runtime composition root (`source/core/runtime.ts:21-43`)

`createRuntime` captures a `runPromise` variable; `start` runs
`pool.run(...)` only when `runPromise` is still unset and otherwise returns
the memoized promise.  The state is the memo cell; a call to `start`
returns the new state, the events this call caused to be emitted, and the
results the returned promise resolves with. -/

structure RuntimeConfig where
  jobs : List DownloadJob
  strategies : List DownloadStrategy
  fallback : DownloadStrategy
  concurrency : ℕ
  retries : ℕ
  emitLogs : Bool := false

def runtimePoolOptions (cfg : RuntimeConfig) : WorkerPoolOptions :=
  { concurrency := cfg.concurrency, retries := cfg.retries, baseBackoffMs := none }

abbrev RuntimeState := Option (List WorkerEvent × List DownloadResult)

def runtimeStart (cfg : RuntimeConfig) (envOf : DownloadJob → JobEnv) :
    RuntimeState → RuntimeState × List WorkerEvent × List DownloadResult
  | some cached => (some cached, [], cached.2)
  | none =>
    let r := poolRun (runtimePoolOptions cfg) envOf cfg.jobs
    (some r, r.1, r.2)

/-- State and cumulative emitted events after `n` calls to `start`. -/
def runtimeCalls (cfg : RuntimeConfig) (envOf : DownloadJob → JobEnv) :
    ℕ → RuntimeState × List WorkerEvent
  | 0 => (none, [])
  | n + 1 =>
    let acc := runtimeCalls cfg envOf n
    let step := runtimeStart cfg envOf acc.1
    (step.1, acc.2 ++ step.2.1)

/-! ## Progress parser (`source/core/progress-parser.ts`)

Regular-expression matching is embedded concretely per pattern, following
JavaScript leftmost-first semantics.  Greedy sub-matches never need to
backtrack in these patterns: every quantified class (`\d`, `[\d.]`, `\s`)
is disjoint from the token that must follow it. -/

/-- `YT_DLP_PROGRESS_PREFIX` constant. -/
def ytDlpProgressMarker : List Char :=
  "[vidler-progress]".data

inductive SizeUnit where
  | b | kib | mib | gib | tib | kb | mb | gb | tb
  deriving DecidableEq, Repr

/-- `SIZE_UNITS` table. -/
def sizeUnitMultiplier : SizeUnit → ℚ
  | .b => 1
  | .kib => 1024
  | .mib => 1024 ^ 2
  | .gib => 1024 ^ 3
  | .tib => 1024 ^ 4
  | .kb => 1000
  | .mb => 1000 ^ 2
  | .gb => 1000 ^ 3
  | .tb => 1000 ^ 4

/-- `SPEED_UNITS` table (no tera entries; lookups of `TiB`/`TB` miss). -/
def speedUnitMultiplier : SizeUnit → Option ℚ
  | .tib => none
  | .tb => none
  | u => some (sizeUnitMultiplier u)

/-- `normalizeUnit` (`progress-parser.ts:86-114`): case-insensitive match on
the magnitude letter, binary vs decimal decided by the presence of an `i`. -/
def normalizeUnit (unit : List Char) : Option SizeUnit :=
  let original := trimChars unit
  let normalized := lowerChars original
  if normalized = "b".data then some .b
  else if normalized = "kib".data ∨ normalized = "kb".data then
    some (if containsSub "i".data (lowerChars original) then .kib else .kb)
  else if normalized = "mib".data ∨ normalized = "mb".data then
    some (if containsSub "i".data (lowerChars original) then .mib else .mb)
  else if normalized = "gib".data ∨ normalized = "gb".data then
    some (if containsSub "i".data (lowerChars original) then .gib else .gb)
  else if normalized = "tib".data ∨ normalized = "tb".data then
    some (if containsSub "i".data (lowerChars original) then .tib else .tb)
  else none

/-- One unit name of the alternation `B|KiB|MiB|GiB|TiB|KB|MB|GB|TB`, in
JavaScript alternation order (first alternative that matches wins). -/
def sizeUnitNames : List (List Char) :=
  ["B".data, "KiB".data, "MiB".data, "GiB".data, "TiB".data,
   "KB".data, "MB".data, "GB".data, "TB".data]

/-- Unit names accepted by the speed patterns (`B|KiB|MiB|GiB|KB|MB|GB`). -/
def speedUnitNames : List (List Char) :=
  ["B".data, "KiB".data, "MiB".data, "GiB".data, "KB".data, "MB".data, "GB".data]

/-- Case-insensitive literal match at the head of `l`; returns the matched
characters as they appear in `l` together with the rest. -/
def matchLiteralCI : List Char → List Char → Option (List Char × List Char)
  | [], l => some ([], l)
  | _, [] => none
  | p :: ps, c :: cs =>
    if c.toLower = p.toLower then
      (matchLiteralCI ps cs).map fun r => (c :: r.1, r.2)
    else none

def firstSome (f : α → Option β) : List α → Option β
  | [] => none
  | a :: rest => (f a).orElse fun _ => firstSome f rest

/-- First unit name of `names` matching case-insensitively at the head
(JavaScript alternation: alternatives tried left to right; the unit names
are pairwise exclusive at any one position, so no backtracking arises). -/
def matchUnitAt (names : List (List Char)) (l : List Char) :
    Option (List Char × List Char) :=
  firstSome (fun n => matchLiteralCI n l) names

/-- `[\d.]` character class. -/
def isDigitOrDot (c : Char) : Bool :=
  isDigitChar c || c = '.'

/-- JavaScript `\w` word characters (ASCII letters, digits, underscore). -/
def isWordChar (c : Char) : Bool :=
  isDigitChar c || ('a' ≤ c && c ≤ 'z') || ('A' ≤ c && c ≤ 'Z') || c = '_'

/-- `parseNullableNumber` (`progress-parser.ts:116-132`): `undefined` and the
empty string are absent; so are (post-trim) empty, `"none"`, `"na"` and
anything `Number` cannot turn into a finite value. -/
def parseNullableNumber : Option (List Char) → Option ℚ
  | none => none
  | some v =>
    if v = [] then none
    else
      let normalized := trimChars v
      if normalized.length = 0 ∨ lowerChars normalized = "none".data ∨
          lowerChars normalized = "na".data then none
      else jsNumber normalized

/-- Leftmost match of `\d+(?:\.\d+)?` in `value`: the first digit run,
extended by a fractional part when a dot followed by at least one digit
comes right after. -/
def firstDecimalToken : List Char → Option (List Char)
  | [] => none
  | c :: rest =>
    if isDigitChar c then
      let ds := (c :: rest).takeWhile isDigitChar
      let rest2 := (c :: rest).dropWhile isDigitChar
      if rest2.head? = some '.' then
        let fs := rest2.tail.takeWhile isDigitChar
        some (if fs = [] then ds else ds ++ '.' :: fs)
      else some ds
    else firstDecimalToken rest

/-- `parsePercent` (`progress-parser.ts:134-146`). -/
def parsePercent (value : Option (List Char)) : Option ℚ :=
  match value with
  | none => none
  | some v =>
    if v = [] then none
    else
      match firstDecimalToken v with
      | none => none
      | some tok => jsNumber tok

/-- Leftmost match of `(\d+(?:\.\d+)?)%`: a decimal token that must be
followed immediately by a percent sign. -/
def matchNumPercentAt (l : List Char) : Option (List Char) :=
  let ds := l.takeWhile isDigitChar
  let rest := l.dropWhile isDigitChar
  if ds = [] then none
  else if rest.head? = some '%' then some ds
  else if rest.head? = some '.' then
    let fs := rest.tail.takeWhile isDigitChar
    let rest3 := rest.tail.dropWhile isDigitChar
    if fs ≠ [] ∧ rest3.head? = some '%' then some (ds ++ '.' :: fs) else none
  else none

def findNumPercent : List Char → Option (List Char)
  | [] => none
  | c :: rest =>
    match matchNumPercentAt (c :: rest) with
    | some tok => some tok
    | none => findNumPercent rest

/-- A match of `[\d.]+\s*<unit>` somewhere in a line. -/
structure SizeBodyMatch where
  whole : List Char
  num : List Char
  unit : List Char
  rest : List Char
  deriving DecidableEq, Repr

/-- Matches `[\d.]+\s*<unit>` at the head of `l` with the given unit
alternation.  The quantified classes are disjoint from what follows them,
so greedy matching needs no backtracking. -/
def matchSizeBodyAt (names : List (List Char)) (l : List Char) :
    Option SizeBodyMatch :=
  let (num, rest) := l.span isDigitOrDot
  if num = [] then none
  else
    let (spaces, rest2) := rest.span jsWhitespace
    match matchUnitAt names rest2 with
    | none => none
    | some (unit, rest3) =>
      some { whole := num ++ spaces ++ unit, num := num, unit := unit, rest := rest3 }

/-- Matches `[\d.]+\s*<speed-unit>\/s` at the head of `l` (the `/s` is also
case-insensitive under the `/i` flag). -/
def matchSpeedBodyAt (l : List Char) : Option SizeBodyMatch :=
  match matchSizeBodyAt speedUnitNames l with
  | none => none
  | some m =>
    match m.rest with
    | '/' :: c :: r =>
      if c.toLower = 's' then
        some { whole := m.whole ++ ['/', c], num := m.num, unit := m.unit, rest := r }
      else none
    | _ => none

/-- Leftmost match of the size-body pattern anywhere in `l` (these inner
patterns carry no word-boundary anchors). -/
def matchFirstSizeBody (names : List (List Char)) : List Char → Option SizeBodyMatch
  | [] => none
  | c :: rest =>
    (matchSizeBodyAt names (c :: rest)).orElse fun _ => matchFirstSizeBody names rest

def matchFirstSpeedBody : List Char → Option SizeBodyMatch
  | [] => none
  | c :: rest =>
    (matchSpeedBodyAt (c :: rest)).orElse fun _ => matchFirstSpeedBody rest

/-- `parseSize` (`progress-parser.ts:27-42`): re-extracts
`([\d.]+)\s*(unit)` from the captured text, then multiplies.  JavaScript
returns `NaN` (a present number) when the numeric token has several dots;
such values are modelled as absent, which no claim inspects. -/
def parseSize (value : List Char) : Option ℚ :=
  match matchFirstSizeBody sizeUnitNames value with
  | none => none
  | some m =>
    match normalizeUnit m.unit with
    | none => none
    | some u => (jsNumber m.num).map fun q => q * sizeUnitMultiplier u

/-- `parseSpeed` (`progress-parser.ts:44-59`): like `parseSize` over the
speed alternation followed by `/s`. -/
def parseSpeed (value : List Char) : Option ℚ :=
  match matchFirstSpeedBody value with
  | none => none
  | some m =>
    match normalizeUnit m.unit with
    | none => none
    | some u => (speedUnitMultiplier u).bind fun mul => (jsNumber m.num).map fun q => q * mul

/-- `parseEta` (`progress-parser.ts:61-84`): split on `:`, `Number` each
part; two parts are `mm:ss`, three are `hh:mm:ss`, anything else is
unrecognized. -/
def parseEta (value : List Char) : Option ℚ :=
  let parts := (splitOnChar ':' value).map jsNumber
  if parts.any Option.isNone then none
  else
    match parts with
    | [some mm, some ss] => some (mm * 60 + ss)
    | [some hh, some mm, some ss] => some (hh * 3600 + mm * 60 + ss)
    | _ => none

/-- Leftmost-first scan of a pattern whose first character is a word
character and that is preceded by `\b`: a match may start only where the
previous character is not a word character (or at the start of the line). -/
def scanWithBoundary (matchAt : List Char → Option (List Char)) :
    Bool → List Char → Option (List Char)
  | _, [] => none
  | prevIsWord, c :: rest =>
    match (if prevIsWord then none else matchAt (c :: rest)) with
    | some r => some r
    | none => scanWithBoundary matchAt (isWordChar c) rest

/-- Matches `of\s+~?\s*([\d.]+\s*(?:size-unit))` (after its `\b`) at the
head; returns the captured group. -/
def matchOfSizeAt (l : List Char) : Option (List Char) :=
  match matchLiteralCI "of".data l with
  | none => none
  | some (_, rest) =>
    let (ws1, rest2) := rest.span jsWhitespace
    if ws1 = [] then none
    else
      let rest3 := match rest2 with | '~' :: r => r | r => r
      let rest4 := rest3.dropWhile jsWhitespace
      (matchSizeBodyAt sizeUnitNames rest4).map fun m => m.whole

/-- Matches `at\s+([\d.]+\s*(?:speed-unit)\/s)\b` (after its leading `\b`)
at the head; returns the captured group. -/
def matchAtSpeedAt (l : List Char) : Option (List Char) :=
  match matchLiteralCI "at".data l with
  | none => none
  | some (_, rest) =>
    let (ws1, rest2) := rest.span jsWhitespace
    if ws1 = [] then none
    else
      match matchSpeedBodyAt rest2 with
      | none => none
      | some m =>
        match m.rest.head? with
        | none => some m.whole
        | some c => if isWordChar c then none else some m.whole

/-- One `\d+:` repetition of the ETA pattern. -/
def matchDigitsColon (l : List Char) : Option (List Char × List Char) :=
  let (ds, rest) := l.span isDigitChar
  if ds = [] then none
  else
    match rest with
    | ':' :: r => some (ds ++ [':'], r)
    | _ => none

/-- The final `\d+\b` of the ETA pattern: a digit run whose following
character (if any) is not a word character. -/
def matchEtaTail (l : List Char) : Option (List Char) :=
  let (ds, rest) := l.span isDigitChar
  if ds = [] then none
  else
    match rest.head? with
    | none => some ds
    | some c => if isWordChar c then none else some ds

/-- `(?:\d+:){1,2}\d+\b`: the greedy quantifier tries two repetitions
before falling back to one. -/
def matchEtaBody (l : List Char) : Option (List Char) :=
  match matchDigitsColon l with
  | none => none
  | some (rep1, rest1) =>
    let twoReps :=
      match matchDigitsColon rest1 with
      | none => none
      | some (rep2, rest2) => (matchEtaTail rest2).map fun t => rep1 ++ rep2 ++ t
    match twoReps with
    | some r => some r
    | none => (matchEtaTail rest1).map fun t => rep1 ++ t

/-- Matches `ETA\s+((?:\d+:){1,2}\d+)\b` (after its leading `\b`) at the
head; returns the captured group. -/
def matchEtaAt (l : List Char) : Option (List Char) :=
  match matchLiteralCI "eta".data l with
  | none => none
  | some (_, rest) =>
    let (ws1, rest2) := rest.span jsWhitespace
    if ws1 = [] then none else matchEtaBody rest2

/-- The `|`-delimited field list of a structured progress line
(`progress-parser.ts:151-160`): everything after the first occurrence of
the marker, trimmed and split on `|`; absent when the marker is missing or
fewer than seven fields follow it. -/
def structuredFields (line : List Char) : Option (List (List Char)) :=
  match afterFirst ytDlpProgressMarker line with
  | none => none
  | some restRaw =>
    let fields := splitOnChar '|' (trimChars restRaw)
    if fields.length < 7 then none else some fields

/-- The byte-count derivation of the structured parser
(`progress-parser.ts:170-177`): `downloaded/total*100` when the percent
field is absent, both byte counts are present and total is positive. -/
def derivedPercent (percent0 downloadedBytes totalBytes : Option ℚ) : Option ℚ :=
  match percent0, downloadedBytes, totalBytes with
  | none, some d, some t => if 0 < t then some (d / t * 100) else none
  | p, _, _ => p

/-- The percent-derivation pipeline of the structured parser
(`progress-parser.ts:168-181`): the byte-count derivation, then a default
of 100 on a `finished` status when still absent. -/
def structuredPercent (statusRaw : List Char)
    (percent0 downloadedBytes totalBytes : Option ℚ) : Option ℚ :=
  if statusRaw = "finished".data then
    (derivedPercent percent0 downloadedBytes totalBytes).orElse fun _ => some 100
  else derivedPercent percent0 downloadedBytes totalBytes

/-- `parseStructuredYtDlpProgressLine` (`progress-parser.ts:148-191`). -/
def parseStructuredYtDlpProgressLine (line : List Char) : Option DownloadProgress :=
  match structuredFields line with
  | none => none
  | some fields =>
    some { status := .running,
           percent := structuredPercent (lowerChars (trimChars (fields.headD [])))
             (parsePercent (fields.get? 6)) (parseNullableNumber (fields.get? 1))
             ((parseNullableNumber (fields.get? 2)).orElse fun _ =>
               parseNullableNumber (fields.get? 3)),
           totalBytes := (parseNullableNumber (fields.get? 2)).orElse fun _ =>
             parseNullableNumber (fields.get? 3),
           speedBps := parseNullableNumber (fields.get? 4),
           etaSec := parseNullableNumber (fields.get? 5),
           downloadedBytes := parseNullableNumber (fields.get? 1) }

/-- `parseYtDlpProgressLine` (`progress-parser.ts:193-235`): the structured
grammar first; otherwise the human-readable fallback, which yields a
snapshot only when the line mentions `[download]` and carries an
extractable percent figure. -/
def parseYtDlpProgressLine (line : List Char) : Option DownloadProgress :=
  match parseStructuredYtDlpProgressLine line with
  | some structured => some structured
  | none =>
    if !(containsSub "[download]".data line) then none
    else
      match findNumPercent line with
      | none => none
      | some percentTok =>
        let percent := jsNumber percentTok
        let totalBytes := (scanWithBoundary matchOfSizeAt false line).bind parseSize
        let speedBps := (scanWithBoundary matchAtSpeedAt false line).bind parseSpeed
        let etaSec := (scanWithBoundary matchEtaAt false line).bind parseEta
        some { status := .running, percent := percent, totalBytes := totalBytes,
               speedBps := speedBps, etaSec := etaSec,
               downloadedBytes :=
                 match totalBytes, percent with
                 | some t, some p => some (t * p / 100)
                 | _, _ => none }

/-! ## Dependency resolver (`source/core/binary-manager.ts`)

File system, PATH search and network are modelled as an explicit
environment.  `#findBinary` is one lookup (its PATH walk is deterministic
given the file system); the cached-copy check and the post-download
re-verification are separate observations because a download changes the
file system in between.  Every `throw` in the source file constructs a
`DependencyError`. -/

inductive Platform where
  | linux | darwin | win32 | otherPlatform
  deriving DecidableEq, Repr

inductive Arch where
  | x64 | arm64 | arm | ia32 | otherArch
  deriving DecidableEq, Repr

structure ReleaseAsset where
  name : Option String
  browserDownloadUrl : Option String
  deriving DecidableEq, Repr

structure BinaryPaths where
  ytDlpPath : String
  ffmpegPath : Option String
  deriving DecidableEq, Repr

structure BinEnv where
  platform : Platform
  arch : Arch
  cacheDir : String
  findBinary : String → Option String
  cachedIsExecutable : String → Bool
  downloadOutcome : String → String → Option String
  downloadedIsExecutable : String → Bool
  releaseFetch : Except String (List ReleaseAsset)

/-- `#executableName`. -/
def executableName (p : Platform) (base : String) : String :=
  if p = .win32 then base ++ ".exe" else base

/-- `path.join(this.#cacheDir, this.#executableName(base))`. -/
def cachedPathFor (env : BinEnv) (base : String) : String :=
  env.cacheDir ++ "/" ++ executableName env.platform base

/-- `#ytDlpUrl` (`binary-manager.ts:126-140`). -/
def ytDlpUrl : Platform → Option String
  | .linux => some "https://github.com/yt-dlp/yt-dlp/releases/latest/download/yt-dlp"
  | .darwin => some "https://github.com/yt-dlp/yt-dlp/releases/latest/download/yt-dlp_macos"
  | .win32 => some "https://github.com/yt-dlp/yt-dlp/releases/latest/download/yt-dlp.exe"
  | .otherPlatform => none

/-- `downloadToFile`: throws a `DependencyError` naming the url and the
HTTP status when the response is not ok (or has no body). -/
def downloadToFile (env : BinEnv) (url dest : String) : Except VidlerError Unit :=
  match env.downloadOutcome url dest with
  | none => .ok ()
  | some status =>
    .error (.dependencyError
      ("Failed to download dependency from " ++ url ++ " (" ++ status ++ ")."))

/-- `#ensureYtDlp` (`binary-manager.ts:37-70`). -/
def ensureYtDlp (env : BinEnv) : Except VidlerError String :=
  match env.findBinary "yt-dlp" with
  | some existing => .ok existing
  | none =>
    let cachedPath := cachedPathFor env "yt-dlp"
    if env.cachedIsExecutable cachedPath then .ok cachedPath
    else
      match ytDlpUrl env.platform with
      | none =>
        .error (.dependencyError
          "yt-dlp is missing and automatic bootstrap is not supported on this platform.")
      | some downloadUrl =>
        match downloadToFile env downloadUrl cachedPath with
        | .error e => .error e
        | .ok _ =>
          if env.downloadedIsExecutable cachedPath then .ok cachedPath
          else .error (.dependencyError "Failed to bootstrap yt-dlp binary.")

/-- `#ffmpegAssetCandidates` (`binary-manager.ts:197-241`). -/
def ffmpegAssetCandidates : Platform → Arch → List String
  | .linux, .x64 => ["ffmpeg-linux-x64"]
  | .linux, .arm64 => ["ffmpeg-linux-arm64"]
  | .linux, .arm => ["ffmpeg-linux-armhf", "ffmpeg-linux-arm"]
  | .linux, .ia32 => ["ffmpeg-linux-ia32", "ffmpeg-linux-x86"]
  | .linux, .otherArch => []
  | .darwin, .arm64 => ["ffmpeg-darwin-arm64"]
  | .darwin, .x64 => ["ffmpeg-darwin-x64"]
  | .darwin, _ => []
  | .win32, .x64 => ["ffmpeg-win32-x64.exe", "ffmpeg-win32-x64"]
  | .win32, .ia32 => ["ffmpeg-win32-ia32.exe", "ffmpeg-win32-ia32"]
  | .win32, .arm64 => ["ffmpeg-win32-arm64.exe", "ffmpeg-win32-arm64"]
  | .win32, _ => []
  | .otherPlatform, _ => []

/-- Truthiness of `asset.browser_download_url`. -/
def urlTruthy : Option String → Bool
  | none => false
  | some s => s ≠ ""

/-- `asset.name ?? ""`. -/
def assetNameOf (a : ReleaseAsset) : String :=
  a.name.getD ""

/-- The exact-name pass of `#resolveFfmpegDownloadUrl` (lines 168-175). -/
def findExactAsset (candidates : List String) (assets : List ReleaseAsset) :
    Option String :=
  firstSome
    (fun nm =>
      (assets.find? fun a =>
          decide (a.name = some nm) && urlTruthy a.browserDownloadUrl).bind
        fun a => a.browserDownloadUrl)
    candidates

/-- `name.endsWith(".exe") ? name.slice(0, -4) : name`. -/
def relaxedName (nm : String) : String :=
  if endsWith ".exe".data nm.data then ⟨nm.data.take (nm.data.length - 4)⟩ else nm

/-- The relaxed-match pass of `#resolveFfmpegDownloadUrl` (lines 177-192):
a name-drift-tolerant search excluding known non-binary artifacts. -/
def findRelaxedAsset (candidates : List String) (assets : List ReleaseAsset) :
    Option String :=
  firstSome
    (fun nm =>
      let pre := relaxedName nm
      (assets.find? fun a =>
          let assetName := assetNameOf a
          urlTruthy a.browserDownloadUrl &&
            startsWith pre.data assetName.data &&
            !endsWith ".gz".data assetName.data &&
            !containsSub ".README".data assetName.data &&
            !containsSub ".LICENSE".data assetName.data).bind
        fun a => a.browserDownloadUrl)
    candidates

/-- `#resolveFfmpegDownloadUrl` (`binary-manager.ts:142-195`): may throw a
`DependencyError` when the release-metadata fetch is not ok. -/
def resolveFfmpegDownloadUrl (env : BinEnv) : Except VidlerError (Option String) :=
  let candidates := ffmpegAssetCandidates env.platform env.arch
  if candidates = [] then .ok none
  else
    match env.releaseFetch with
    | .error status =>
      .error (.dependencyError
        ("Failed to resolve ffmpeg release metadata (" ++ status ++ ")."))
    | .ok assets =>
      match findExactAsset candidates assets with
      | some url => .ok (some url)
      | none => .ok (findRelaxedAsset candidates assets)

/-- `#ensureFfmpeg` (`binary-manager.ts:72-124`): every failure past the
cache check is caught and converted into "path unset" (with a verbose-only
warning); this function cannot raise. -/
def ensureFfmpeg (env : BinEnv) : Option String :=
  match env.findBinary "ffmpeg" with
  | some existing => some existing
  | none =>
    let cachedPath := cachedPathFor env "ffmpeg"
    if env.cachedIsExecutable cachedPath then some cachedPath
    else
      match resolveFfmpegDownloadUrl env with
      | .error _ => none
      | .ok none => none
      | .ok (some url) =>
        match downloadToFile env url cachedPath with
        | .error _ => none
        | .ok _ =>
          if env.downloadedIsExecutable cachedPath then some cachedPath
          else none

/-- `ensureBinaries` (`binary-manager.ts:22-35`). -/
def ensureBinaries (env : BinEnv) : Except VidlerError BinaryPaths :=
  match ensureYtDlp env with
  | .error e => .error e
  | .ok ytDlpPath => .ok { ytDlpPath := ytDlpPath, ffmpegPath := ensureFfmpeg env }

/-! ## CLI main flow (`source/cli.tsx:130-149`)

`main` awaits `binaryManager.ensureBinaries(...)` before `createRuntime`
is called and before `runtime.start()` is awaited; a rejection propagates
to the top-level catch (exit code via `toExitCode`) without creating the
pool, so no worker event is ever emitted. -/

def cliRun (env : BinEnv) (cfg : RuntimeConfig) (envOf : DownloadJob → JobEnv) :
    Except VidlerError (List WorkerEvent × List DownloadResult) :=
  match ensureBinaries env with
  | .error e => .error e
  | .ok _paths => .ok (poolRun (runtimePoolOptions cfg) envOf cfg.jobs)

/-- The worker events observable from a CLI run (none when the run aborted
before the pool started). -/
def cliEvents (r : Except VidlerError (List WorkerEvent × List DownloadResult)) :
    List WorkerEvent :=
  match r with
  | .error _ => []
  | .ok t => t.1

/-! ## C2: retryability classification -/

/-- Claim C2 as stated is false at a concrete input: an
`InvalidInputError` whose message is "timeout" carries a transient signal
in its text, so the spec's biconditional classifies it retryable, yet
`isRetryableError` returns the error's explicit flag, `false`. -/
theorem c2_counterexample :
    isRetryableError (.vidler (.invalidInput "timeout")) = false ∧
      specRetryable (.vidler (.invalidInput "timeout")) = true := by
  decide

/-- Claim C2 (amended): for a taxonomy (`VidlerError`) value the classifier
returns exactly the explicit retryable flag, message text notwithstanding;
for any other `Error` it returns true iff the lowercased message contains
one of the transient-signal substrings; non-`Error` throws are never
retryable. -/
theorem c2_isRetryableError_classification (v : JsThrown) :
    isRetryableError v = true ↔
      ((∃ e, v = .vidler e ∧ e.retryable = true) ∨
        (∃ msg, v = .plainError msg ∧
          ∃ pat ∈ retryablePatterns, containsSub pat (lowerChars msg.data) = true)) := by
  cases v with
  | vidler e => simp [isRetryableError]
  | plainError msg => simp [isRetryableError, List.any_eq_true]
  | nonError => simp [isRetryableError]

/-! ## C3: backoff formula and bounds -/

/-- Rounding to nearest moves a rational by at most one half. -/
theorem round_rat_within_half (x : ℚ) :
    x - 1 / 2 ≤ ((round x : ℤ) : ℚ) ∧ ((round x : ℤ) : ℚ) ≤ x + 1 / 2 := by
  rw [round_eq]
  constructor
  · have := Int.sub_one_lt_floor (x + 1 / 2)
    push_cast at *
    linarith
  · have := Int.floor_le (x + 1 / 2)
    push_cast at *
    linarith

/-- Doubling a value that is at least 4/5 strictly increases its rounding. -/
theorem round_rat_double_gt (x : ℚ) (hx : 4 / 5 ≤ x) :
    round x < round (2 * x) := by
  rw [round_eq, round_eq]
  rcases le_or_lt 1 x with hge | hlt
  · have h1 : ((⌊x + 1 / 2⌋ : ℤ) : ℚ) ≤ x + 1 / 2 := Int.floor_le _
    have h3 : ⌊x + 1 / 2⌋ + 1 ≤ ⌊2 * x + 1 / 2⌋ := by
      apply Int.le_floor.mpr
      push_cast
      linarith
    omega
  · have hfl1 : ⌊x + 1 / 2⌋ = 1 := by
      rw [show (1 : ℤ) = ⌊(1 : ℚ)⌋ from (Int.floor_one).symm]
      rw [Int.floor_one]
      apply Int.floor_eq_iff.mpr
      constructor
      · push_cast
        linarith
      · push_cast
        linarith
    have hfl2 : (2 : ℤ) ≤ ⌊2 * x + 1 / 2⌋ := by
      apply Int.le_floor.mpr
      push_cast
      linarith
    omega

/-- An integer lower bound below a value bounds its rounding from below. -/
theorem round_rat_ge_int (m : ℤ) (x : ℚ) (h : (m : ℚ) ≤ x) : m ≤ round x := by
  rw [round_eq]
  apply Int.le_floor.mpr
  linarith

/-- A value strictly below an integer plus one half rounds to at most it. -/
theorem round_rat_le_int (M : ℤ) (x : ℚ) (h : x < (M : ℚ) + 1 / 2) : round x ≤ M := by
  rw [round_eq]
  have : ⌊x + 1 / 2⌋ < M + 1 := by
    apply Int.floor_lt.mpr
    push_cast
    linarith
  omega

/-- Claim C3 as stated is false at a concrete input: with base 3 ms,
attempt 1 and jitter exactly 0.8 (random sample 0) the delay is
round(3 · 2⁰ · 0.8) = round(2.4) = 2 ms, strictly below the claimed lower
bound 0.8 · (3 · 2⁰) = 2.4 ms. -/
theorem c3_counterexample :
    computeBackoff 3 1 0 = 2 ∧
      ¬((4 : ℚ) / 5 * (3 * 2 ^ (1 - 1)) ≤ ((computeBackoff 3 1 0 : ℤ) : ℚ)) := by
  have h : computeBackoff 3 1 0 = 2 := by
    unfold computeBackoff
    rw [round_eq]
    rw [show (3 : ℚ) * 2 ^ (1 - 1) * (4 / 5 + 0 * (2 / 5)) + 1 / 2 = 29 / 10 by norm_num]
    apply Int.floor_eq_iff.mpr
    constructor <;> norm_num
  refine ⟨h, ?_⟩
  rw [h]
  push_cast
  norm_num

/-- Claim C3 (amended): for every attempt a ≥ 1 and jitter sample
r ∈ [0,1) (jitter factor 0.8 + 0.4·r ∈ [0.8, 1.2)), the delay equals
round(base · 2^(a-1) · jitter); writing B = base · 2^(a-1), whenever
base ≥ 1 the delay is strictly increasing in a for fixed jitter, and
rounding keeps it within [0.8·B − ½, 1.2·B + ½]; for the default base of
500 ms it lies within [0.8·B, 1.2·B] exactly. -/
theorem c3_computeBackoff_bounds (base : ℚ) (a : ℕ) (r : ℚ)
    (hbase : 1 ≤ base) (ha : 1 ≤ a) (hr0 : 0 ≤ r) (hr1 : r < 1) :
    computeBackoff base a r = round (base * 2 ^ (a - 1) * (4 / 5 + r * (2 / 5))) ∧
      computeBackoff base a r < computeBackoff base (a + 1) r ∧
      (4 / 5) * (base * 2 ^ (a - 1)) - 1 / 2 ≤ ((computeBackoff base a r : ℤ) : ℚ) ∧
      ((computeBackoff base a r : ℤ) : ℚ) ≤ (6 / 5) * (base * 2 ^ (a - 1)) + 1 / 2 ∧
      (base = 500 →
        (4 / 5) * (base * 2 ^ (a - 1)) ≤ ((computeBackoff base a r : ℤ) : ℚ) ∧
          ((computeBackoff base a r : ℤ) : ℚ) ≤ (6 / 5) * (base * 2 ^ (a - 1))) := by
  obtain ⟨k, rfl⟩ : ∃ k, a = k + 1 := ⟨a - 1, (Nat.succ_pred_eq_of_pos ha).symm⟩
  have hksimp : k + 1 - 1 = k := rfl
  have hBpos : (1 : ℚ) ≤ base * 2 ^ k := by
    have h2 : (1 : ℚ) ≤ 2 ^ k := one_le_pow₀ (by norm_num)
    nlinarith
  have hjlo : (4 : ℚ) / 5 ≤ 4 / 5 + r * (2 / 5) := by nlinarith
  have hjhi : (4 : ℚ) / 5 + r * (2 / 5) < 6 / 5 := by nlinarith
  have hx : computeBackoff base (k + 1) r
      = round (base * 2 ^ k * (4 / 5 + r * (2 / 5))) := by
    simp [computeBackoff, hksimp]
  have hxlo : (4 : ℚ) / 5 * (base * 2 ^ k) ≤ base * 2 ^ k * (4 / 5 + r * (2 / 5)) := by
    nlinarith
  have hxhi : base * 2 ^ k * (4 / 5 + r * (2 / 5)) < 6 / 5 * (base * 2 ^ k) := by
    nlinarith
  have hx45 : (4 : ℚ) / 5 ≤ base * 2 ^ k * (4 / 5 + r * (2 / 5)) := by nlinarith
  refine ⟨by rw [hksimp]; exact hx, ?_, ?_, ?_, ?_⟩
  · -- strict monotonicity in the attempt number
    have hnext : computeBackoff base (k + 1 + 1) r
        = round (2 * (base * 2 ^ k * (4 / 5 + r * (2 / 5)))) := by
      have harg : base * 2 ^ (k + 1) * (4 / 5 + r * (2 / 5))
          = 2 * (base * 2 ^ k * (4 / 5 + r * (2 / 5))) := by ring
      simp only [computeBackoff, Nat.add_sub_cancel]
      rw [harg]
    rw [hx, hnext]
    exact round_rat_double_gt _ hx45
  · -- lower rounding bound
    rw [hksimp, hx]
    have := (round_rat_within_half (base * 2 ^ k * (4 / 5 + r * (2 / 5)))).1
    linarith
  · -- upper rounding bound
    rw [hksimp, hx]
    have := (round_rat_within_half (base * 2 ^ k * (4 / 5 + r * (2 / 5)))).2
    linarith
  · -- exact bounds for the default base
    intro hb500
    subst hb500
    rw [hksimp, hx]
    constructor
    · have hcast : (((400 : ℤ) * 2 ^ k : ℤ) : ℚ) = 4 / 5 * ((500 : ℚ) * 2 ^ k) := by
        push_cast
        ring
      have hle : ((400 : ℤ) * 2 ^ k : ℤ) ≤ round ((500 : ℚ) * 2 ^ k * (4 / 5 + r * (2 / 5))) :=
        round_rat_ge_int _ _ (le_trans (le_of_eq hcast) hxlo)
      calc (4 : ℚ) / 5 * ((500 : ℚ) * 2 ^ k) = (((400 : ℤ) * 2 ^ k : ℤ) : ℚ) := hcast.symm
      _ ≤ _ := by exact_mod_cast hle
    · have hcast : (((600 : ℤ) * 2 ^ k : ℤ) : ℚ) = 6 / 5 * ((500 : ℚ) * 2 ^ k) := by
        push_cast
        ring
      have hle : round ((500 : ℚ) * 2 ^ k * (4 / 5 + r * (2 / 5))) ≤ ((600 : ℤ) * 2 ^ k : ℤ) := by
        apply round_rat_le_int
        rw [hcast]
        linarith
      calc ((round ((500 : ℚ) * 2 ^ k * (4 / 5 + r * (2 / 5))) : ℤ) : ℚ)
          ≤ (((600 : ℤ) * 2 ^ k : ℤ) : ℚ) := by exact_mod_cast hle
      _ = 6 / 5 * ((500 : ℚ) * 2 ^ k) := hcast

/-- Witness for C3 (amended) at base 500, attempt 1, jitter sample 0:
the delay is round(500 · 0.8) = 400, inside [400, 600]. -/
theorem c3_computeBackoff_bounds_witness :
    (1 : ℚ) ≤ 500 ∧ 1 ≤ 1 ∧ (0 : ℚ) ≤ 0 ∧ (0 : ℚ) < 1 ∧
      (computeBackoff 500 1 0 = round ((500 : ℚ) * 2 ^ (1 - 1) * (4 / 5 + 0 * (2 / 5))) ∧
        computeBackoff 500 1 0 < computeBackoff 500 (1 + 1) 0 ∧
        (4 / 5) * ((500 : ℚ) * 2 ^ (1 - 1)) - 1 / 2 ≤ ((computeBackoff 500 1 0 : ℤ) : ℚ) ∧
        ((computeBackoff 500 1 0 : ℤ) : ℚ) ≤ (6 / 5) * ((500 : ℚ) * 2 ^ (1 - 1)) + 1 / 2 ∧
        ((500 : ℚ) = 500 →
          (4 / 5) * ((500 : ℚ) * 2 ^ (1 - 1)) ≤ ((computeBackoff 500 1 0 : ℤ) : ℚ) ∧
            ((computeBackoff 500 1 0 : ℤ) : ℚ) ≤ (6 / 5) * ((500 : ℚ) * 2 ^ (1 - 1)))) :=
  ⟨by norm_num, le_refl 1, le_refl 0, by norm_num,
    c3_computeBackoff_bounds 500 1 0 (by norm_num) (le_refl 1) (le_refl 0) (by norm_num)⟩

/-! ## C7: registry resolution -/

/-- A `find?` over strategies skips a prefix that rejects the job. -/
theorem find?_strategy_append (job : DownloadJob) (s : DownloadStrategy)
    (post : List DownloadStrategy) :
    ∀ pre : List DownloadStrategy, (∀ t ∈ pre, t.canHandle job = false) →
      s.canHandle job = true →
      (pre ++ s :: post).find? (fun t => t.canHandle job) = some s := by
  intro pre
  induction pre with
  | nil =>
    intro _ hs
    simp [List.find?, hs]
  | cons head tail ih =>
    intro hpre hs
    have hhead : head.canHandle job = false := hpre head (by simp)
    have htail : ∀ t ∈ tail, t.canHandle job = false := fun t ht => hpre t (by simp [ht])
    simp only [List.cons_append, List.find?, hhead]
    exact ih htail hs

/-- Claim C7: `StrategyRegistry.resolve` iterates the registered strategies
in registration order and returns the first whose `canHandle` accepts the
job; when no registered strategy matches it returns the designated
fallback. -/
theorem c7_resolve_first_match (reg : StrategyRegistry) (job : DownloadJob) :
    (∀ pre s post, reg.strategies = pre ++ s :: post →
        (∀ t ∈ pre, t.canHandle job = false) → s.canHandle job = true →
        reg.resolve job = s) ∧
      ((∀ t ∈ reg.strategies, t.canHandle job = false) →
        reg.resolve job = reg.fallback) := by
  constructor
  · intro pre s post hsplit hpre hs
    unfold StrategyRegistry.resolve StrategyRegistry.resolve'
    rw [hsplit, find?_strategy_append job s post pre hpre hs]
  · intro hall
    unfold StrategyRegistry.resolve StrategyRegistry.resolve'
    have h1 : reg.strategies.find? (fun t => t.canHandle job) = none := by
      apply List.find?_eq_none.mpr
      intro t ht
      simp [hall t ht]
    rw [h1]

def sampleRequest : DownloadRequest :=
  { url := "https://www.youtube.com/watch?v=abc", quality := "best",
    outputDir := "./output", filenameTemplate := none, retries := 3,
    timeoutSec := none }

def sampleJob : DownloadJob :=
  { id := "job-1", request := sampleRequest, detectedProvider := .youtube }

/-- The base `YtDlpStrategy`, whose `canHandle` accepts every job
(`strategies/yt-dlp.ts:33-35`). -/
def ytDlpBase : DownloadStrategy :=
  { name := "yt-dlp", canHandle := fun _ => true }

/-- The provider-bound strategy set of `createYtDlpStrategySet`
(`strategies/yt-dlp.ts:240-254`), restricted to the two entries the
witness exercises. -/
def sampleRegistry : StrategyRegistry :=
  { strategies :=
      [bindStrategyToProviders ytDlpBase [.tiktok] "yt-dlp:tiktok",
       bindStrategyToProviders ytDlpBase [.youtube] "yt-dlp:youtube"],
    fallback := ytDlpBase }

/-- Witness for C7: a YouTube job skips the TikTok-bound adapter and
resolves to the YouTube-bound one. -/
theorem c7_resolve_first_match_witness :
    sampleRegistry.strategies =
        [bindStrategyToProviders ytDlpBase [.tiktok] "yt-dlp:tiktok"] ++
          bindStrategyToProviders ytDlpBase [.youtube] "yt-dlp:youtube" :: [] ∧
      (∀ t ∈ [bindStrategyToProviders ytDlpBase [.tiktok] "yt-dlp:tiktok"],
        t.canHandle sampleJob = false) ∧
      (bindStrategyToProviders ytDlpBase [.youtube] "yt-dlp:youtube").canHandle
          sampleJob = true ∧
      sampleRegistry.resolve sampleJob =
        bindStrategyToProviders ytDlpBase [.youtube] "yt-dlp:youtube" := by
  have hpre : ∀ t ∈ [bindStrategyToProviders ytDlpBase [.tiktok] "yt-dlp:tiktok"],
      t.canHandle sampleJob = false := by
    intro t ht
    rw [List.mem_singleton] at ht
    subst ht
    rfl
  exact ⟨rfl, hpre, rfl,
    (c7_resolve_first_match sampleRegistry sampleJob).1
      [bindStrategyToProviders ytDlpBase [.tiktok] "yt-dlp:tiktok"]
      (bindStrategyToProviders ytDlpBase [.youtube] "yt-dlp:youtube") [] rfl hpre rfl⟩

/-! ## C8: mandatory executable missing -/

/-- Claim C8: with the primary executable absent from PATH, no cached
copy, and no platform download URL, the CLI run fails with the
`DependencyError` thrown by `#ensureYtDlp` before the pool is created, so
no `jobStarted` event is ever emitted. -/
theorem c8_missing_ytdlp_aborts (benv : BinEnv) (cfg : RuntimeConfig)
    (envOf : DownloadJob → JobEnv)
    (hpath : benv.findBinary "yt-dlp" = none)
    (hcache : benv.cachedIsExecutable (cachedPathFor benv "yt-dlp") = false)
    (hurl : ytDlpUrl benv.platform = none) :
    cliRun benv cfg envOf =
        .error (.dependencyError
          "yt-dlp is missing and automatic bootstrap is not supported on this platform.") ∧
      countStarted (cliEvents (cliRun benv cfg envOf)) = 0 := by
  have hyt : ensureYtDlp benv =
      .error (.dependencyError
        "yt-dlp is missing and automatic bootstrap is not supported on this platform.") := by
    simp only [ensureYtDlp, hpath, hcache, hurl]
    simp
  have hrun : cliRun benv cfg envOf =
      .error (.dependencyError
        "yt-dlp is missing and automatic bootstrap is not supported on this platform.") := by
    unfold cliRun ensureBinaries
    rw [hyt]
  exact ⟨hrun, by rw [hrun]; rfl⟩

/-- An environment on an unsupported platform with empty PATH results and
an empty cache. -/
def bareBinEnv : BinEnv :=
  { platform := .otherPlatform, arch := .otherArch, cacheDir := "/cache",
    findBinary := fun _ => none, cachedIsExecutable := fun _ => false,
    downloadOutcome := fun _ _ => none, downloadedIsExecutable := fun _ => false,
    releaseFetch := .ok [] }

def sampleRuntimeConfig : RuntimeConfig :=
  { jobs := [sampleJob], strategies := sampleRegistry.strategies,
    fallback := ytDlpBase, concurrency := 1, retries := 3 }

/-- An attempt environment in which every attempt fails with a
non-retryable subprocess error. -/
def failingJobEnv : JobEnv :=
  { outcome := fun _ =>
      .failure (.vidler (.downloadError "yt-dlp failed with exit code 1" false none)),
    progress := fun _ => [], rand := fun _ => 0 }

/-- Witness for C8 on the bare environment. -/
theorem c8_missing_ytdlp_aborts_witness :
    bareBinEnv.findBinary "yt-dlp" = none ∧
      bareBinEnv.cachedIsExecutable (cachedPathFor bareBinEnv "yt-dlp") = false ∧
      ytDlpUrl bareBinEnv.platform = none ∧
      (cliRun bareBinEnv sampleRuntimeConfig (fun _ => failingJobEnv) =
          .error (.dependencyError
            "yt-dlp is missing and automatic bootstrap is not supported on this platform.") ∧
        countStarted
          (cliEvents (cliRun bareBinEnv sampleRuntimeConfig (fun _ => failingJobEnv))) = 0) :=
  ⟨rfl, rfl, rfl,
    c8_missing_ytdlp_aborts bareBinEnv sampleRuntimeConfig (fun _ => failingJobEnv)
      rfl rfl rfl⟩

/-! ## C9: optional executable failure degrades gracefully -/

/-- Claim C9: whenever the secondary executable is not found and not
cached, and its bootstrap fails in any of the spec's modes — no
platform/architecture asset candidate, release-metadata fetch failure, a
resolution that yields no URL, or a failing download/verification —
`#ensureFfmpeg` returns "unset" instead of raising, and `ensureBinaries`
still succeeds with `ffmpegPath` unset whenever the primary executable
resolved. -/
theorem c9_ffmpeg_failure_degrades (benv : BinEnv) (p : String)
    (hyt : ensureYtDlp benv = .ok p)
    (hfind : benv.findBinary "ffmpeg" = none)
    (hcache : benv.cachedIsExecutable (cachedPathFor benv "ffmpeg") = false)
    (hfail :
      ffmpegAssetCandidates benv.platform benv.arch = [] ∨
        (∃ status, benv.releaseFetch = .error status) ∨
        resolveFfmpegDownloadUrl benv = .ok none ∨
        (∀ url, resolveFfmpegDownloadUrl benv = .ok (some url) →
          (∃ st, benv.downloadOutcome url (cachedPathFor benv "ffmpeg") = some st) ∨
            (benv.downloadOutcome url (cachedPathFor benv "ffmpeg") = none ∧
              benv.downloadedIsExecutable (cachedPathFor benv "ffmpeg") = false))) :
    ensureFfmpeg benv = none ∧
      ensureBinaries benv = .ok { ytDlpPath := p, ffmpegPath := none } := by
  have hnone : ensureFfmpeg benv = none := by
    rcases hfail with hcand | ⟨status, hst⟩ | hres | hdl
    · have hres : resolveFfmpegDownloadUrl benv = .ok none := by
        simp [resolveFfmpegDownloadUrl, hcand]
      simp [ensureFfmpeg, hfind, hcache, hres]
    · by_cases hcand : ffmpegAssetCandidates benv.platform benv.arch = []
      · have hres : resolveFfmpegDownloadUrl benv = .ok none := by
          simp [resolveFfmpegDownloadUrl, hcand]
        simp [ensureFfmpeg, hfind, hcache, hres]
      · have hres : resolveFfmpegDownloadUrl benv =
            .error (.dependencyError
              ("Failed to resolve ffmpeg release metadata (" ++ status ++ ").")) := by
          simp only [resolveFfmpegDownloadUrl, if_neg hcand, hst]
        simp [ensureFfmpeg, hfind, hcache, hres]
    · simp [ensureFfmpeg, hfind, hcache, hres]
    · cases hres : resolveFfmpegDownloadUrl benv with
      | error e =>
        simp [ensureFfmpeg, hfind, hcache, hres]
      | ok maybeUrl =>
        cases maybeUrl with
        | none =>
          simp [ensureFfmpeg, hfind, hcache, hres]
        | some url =>
          rcases hdl url hres with ⟨st, hstv⟩ | ⟨hok, hexec⟩
          · have hdlv : downloadToFile benv url (cachedPathFor benv "ffmpeg") =
                .error (.dependencyError
                  ("Failed to download dependency from " ++ url ++ " (" ++ st ++ ").")) := by
              simp only [downloadToFile, hstv]
            simp [ensureFfmpeg, hfind, hcache, hres, hdlv]
          · have hdlv : downloadToFile benv url (cachedPathFor benv "ffmpeg") = .ok () := by
              simp only [downloadToFile, hok]
            simp [ensureFfmpeg, hfind, hcache, hres, hdlv, hexec]
  refine ⟨hnone, ?_⟩
  unfold ensureBinaries
  rw [hyt, hnone]

/-- Witness for C9: on the bare environment with the primary executable
present on PATH, the empty candidate list leaves ffmpeg unset and the run
proceeds. -/
theorem c9_ffmpeg_failure_degrades_witness :
    ensureYtDlp { bareBinEnv with
        findBinary := fun name => if name = "yt-dlp" then some "/usr/bin/yt-dlp" else none } =
        .ok "/usr/bin/yt-dlp" ∧
      ({ bareBinEnv with
          findBinary := fun name =>
            if name = "yt-dlp" then some "/usr/bin/yt-dlp" else none } :
            BinEnv).findBinary "ffmpeg" = none ∧
      (ensureFfmpeg { bareBinEnv with
          findBinary := fun name =>
            if name = "yt-dlp" then some "/usr/bin/yt-dlp" else none } = none ∧
        ensureBinaries { bareBinEnv with
            findBinary := fun name =>
              if name = "yt-dlp" then some "/usr/bin/yt-dlp" else none } =
          .ok { ytDlpPath := "/usr/bin/yt-dlp", ffmpegPath := none }) :=
  ⟨rfl, rfl,
    c9_ffmpeg_failure_degrades
      { bareBinEnv with
        findBinary := fun name => if name = "yt-dlp" then some "/usr/bin/yt-dlp" else none }
      "/usr/bin/yt-dlp" rfl rfl rfl (Or.inl rfl)⟩

/-! ## C10: runtime start memoization -/

/-- Claim C10: `start` memoizes its `runPromise`; after any positive
number of calls the cached run is the single `pool.run` execution, the
only events ever emitted are the first call's, and any further call
returns the first run's results without emitting anything. -/
theorem c10_runtime_start_idempotent (cfg : RuntimeConfig)
    (envOf : DownloadJob → JobEnv) (n : ℕ) (hn : 1 ≤ n) :
    runtimeCalls cfg envOf n =
        (some (poolRun (runtimePoolOptions cfg) envOf cfg.jobs),
          (poolRun (runtimePoolOptions cfg) envOf cfg.jobs).1) ∧
      runtimeStart cfg envOf (runtimeCalls cfg envOf n).1 =
        ((runtimeCalls cfg envOf n).1, [],
          (poolRun (runtimePoolOptions cfg) envOf cfg.jobs).2) := by
  induction n with
  | zero => exact absurd hn (by omega)
  | succ m ih =>
    rcases Nat.eq_zero_or_pos m with rfl | hm
    · constructor
      · show runtimeCalls cfg envOf 1 = _
        unfold runtimeCalls runtimeCalls
        unfold runtimeStart
        simp
      · have h1 : (runtimeCalls cfg envOf 1).1 =
            some (poolRun (runtimePoolOptions cfg) envOf cfg.jobs) := by
          unfold runtimeCalls runtimeCalls
          unfold runtimeStart
          simp
        rw [h1]
        rfl
    · obtain ⟨h1, _⟩ := ih hm
      have hstep : runtimeCalls cfg envOf (m + 1) =
          (some (poolRun (runtimePoolOptions cfg) envOf cfg.jobs),
            (poolRun (runtimePoolOptions cfg) envOf cfg.jobs).1) := by
        unfold runtimeCalls
        rw [h1]
        simp [runtimeStart]
      refine ⟨hstep, ?_⟩
      rw [hstep]
      rfl

/-- Witness for C10 at two `start` calls on a concrete runtime. -/
theorem c10_runtime_start_idempotent_witness :
    1 ≤ 2 ∧
      (runtimeCalls sampleRuntimeConfig (fun _ => failingJobEnv) 2 =
          (some (poolRun (runtimePoolOptions sampleRuntimeConfig)
              (fun _ => failingJobEnv) sampleRuntimeConfig.jobs),
            (poolRun (runtimePoolOptions sampleRuntimeConfig)
              (fun _ => failingJobEnv) sampleRuntimeConfig.jobs).1) ∧
        runtimeStart sampleRuntimeConfig (fun _ => failingJobEnv)
            (runtimeCalls sampleRuntimeConfig (fun _ => failingJobEnv) 2).1 =
          ((runtimeCalls sampleRuntimeConfig (fun _ => failingJobEnv) 2).1, [],
            (poolRun (runtimePoolOptions sampleRuntimeConfig)
              (fun _ => failingJobEnv) sampleRuntimeConfig.jobs).2)) :=
  ⟨by omega,
    c10_runtime_start_idempotent sampleRuntimeConfig (fun _ => failingJobEnv) 2 (by omega)⟩

/-! ## C1: one terminal event, attempts accounting -/

theorem countStarted_runJobEvents (env : JobEnv) (job : DownloadJob) (a : ℕ) :
    countStarted (runJobEvents env job a) = 0 := by
  apply List.countP_eq_zero.mpr
  intro e he
  rcases List.mem_cons.mp he with rfl | hm
  · simp [isStartedEvent]
  · obtain ⟨p, _, rfl⟩ := List.mem_map.mp hm
    simp [isStartedEvent]

theorem countTerminal_runJobEvents (env : JobEnv) (job : DownloadJob) (a : ℕ) :
    countTerminal (runJobEvents env job a) = 0 := by
  apply List.countP_eq_zero.mpr
  intro e he
  rcases List.mem_cons.mp he with rfl | hm
  · simp [isTerminalEvent]
  · obtain ⟨p, _, rfl⟩ := List.mem_map.mp hm
    simp [isTerminalEvent]

theorem runWithRetryAux_success_eq (opts : WorkerPoolOptions) (env : JobEnv)
    (job : DownloadJob) (maxAttempts attempt rem : ℕ) (r : DownloadResult)
    (h : env.outcome attempt = .success r) :
    runWithRetryAux opts env job maxAttempts attempt (rem + 1) =
      (WorkerEvent.jobStarted job.id job.detectedProvider attempt ::
        (runJobEvents env job attempt ++
          [WorkerEvent.jobCompleted job.id (runnerResult r attempt)]),
        runnerResult r attempt) := by
  simp [runWithRetryAux, h]

theorem runWithRetryAux_retry_eq (opts : WorkerPoolOptions) (env : JobEnv)
    (job : DownloadJob) (maxAttempts attempt rem : ℕ) (e : JsThrown)
    (h : env.outcome attempt = .failure e)
    (hr : isRetryableError e = true) (hlast : attempt < maxAttempts) :
    runWithRetryAux opts env job maxAttempts attempt (rem + 1) =
      (WorkerEvent.jobStarted job.id job.detectedProvider attempt ::
        (runJobEvents env job attempt ++
          (WorkerEvent.jobRetry job.id attempt (reasonOf e)
              (computeBackoff (resolveBaseBackoff opts.baseBackoffMs) attempt
                (env.rand attempt)) ::
            (runWithRetryAux opts env job maxAttempts (attempt + 1) rem).1)),
        (runWithRetryAux opts env job maxAttempts (attempt + 1) rem).2) := by
  have hnotlast : ¬(maxAttempts ≤ attempt) := by omega
  simp [runWithRetryAux, h, hr, hnotlast]

theorem runWithRetryAux_failed_eq (opts : WorkerPoolOptions) (env : JobEnv)
    (job : DownloadJob) (maxAttempts attempt rem : ℕ) (e : JsThrown)
    (h : env.outcome attempt = .failure e)
    (hcond : (isRetryableError e && !decide (maxAttempts ≤ attempt)) = false) :
    runWithRetryAux opts env job maxAttempts attempt (rem + 1) =
      (WorkerEvent.jobStarted job.id job.detectedProvider attempt ::
        (runJobEvents env job attempt ++
          [WorkerEvent.jobFailed job.id
            { jobId := job.id, success := false, provider := job.detectedProvider,
              attempts := attempt, errorMessage := some (reasonOf e) }]),
        { jobId := job.id, success := false, provider := job.detectedProvider,
          attempts := attempt, errorMessage := some (reasonOf e) }) := by
  simp [runWithRetryAux, h, hcond]

theorem countStarted_nil : countStarted [] = 0 := rfl

theorem countTerminal_nil : countTerminal [] = 0 := rfl

theorem countStarted_cons (e : WorkerEvent) (l : List WorkerEvent) :
    countStarted (e :: l) = countStarted l + if isStartedEvent e = true then 1 else 0 := by
  simp [countStarted, List.countP_cons]

theorem countTerminal_cons (e : WorkerEvent) (l : List WorkerEvent) :
    countTerminal (e :: l) = countTerminal l + if isTerminalEvent e = true then 1 else 0 := by
  simp [countTerminal, List.countP_cons]

theorem countStarted_append (l1 l2 : List WorkerEvent) :
    countStarted (l1 ++ l2) = countStarted l1 + countStarted l2 := by
  simp [countStarted, List.countP_append]

theorem countTerminal_append (l1 l2 : List WorkerEvent) :
    countTerminal (l1 ++ l2) = countTerminal l1 + countTerminal l2 := by
  simp [countTerminal, List.countP_append]

/-- The loop invariant of `#runWithRetry`: entered at attempt number
`attempt ≥ 1` with `remaining ≥ 1` iterations left and
`attempt + remaining = maxAttempts + 1`, it emits exactly one terminal
event, its result's `attempts` accounts for all `jobStarted` events
emitted from this point on, and `attempts` never exceeds `maxAttempts`. -/
theorem runWithRetryAux_invariant (opts : WorkerPoolOptions) (env : JobEnv)
    (job : DownloadJob) (maxAttempts : ℕ) :
    ∀ remaining attempt, 1 ≤ remaining → 1 ≤ attempt →
      attempt + remaining = maxAttempts + 1 →
      countTerminal (runWithRetryAux opts env job maxAttempts attempt remaining).1 = 1 ∧
        (runWithRetryAux opts env job maxAttempts attempt remaining).2.attempts
          = attempt - 1 +
              countStarted (runWithRetryAux opts env job maxAttempts attempt remaining).1 ∧
        (runWithRetryAux opts env job maxAttempts attempt remaining).2.attempts
          ≤ maxAttempts := by
  intro remaining
  induction remaining with
  | zero =>
    intro attempt h1 _ _
    exact absurd h1 (by omega)
  | succ rem ih =>
    intro attempt hrem hatt hsum
    have h0s := countStarted_runJobEvents env job attempt
    have h0t := countTerminal_runJobEvents env job attempt
    cases houtcome : env.outcome attempt with
    | success r =>
      rw [runWithRetryAux_success_eq opts env job maxAttempts attempt rem r houtcome]
      refine ⟨?_, ?_, ?_⟩
      · rw [countTerminal_cons, countTerminal_append, h0t, countTerminal_cons,
          countTerminal_nil]
        simp [isTerminalEvent, isStartedEvent]
      · rw [countStarted_cons, countStarted_append, h0s, countStarted_cons,
          countStarted_nil]
        simp [isStartedEvent, runnerResult]
        omega
      · simp [runnerResult]
        omega
    | failure e =>
      by_cases hcond : (isRetryableError e && !decide (maxAttempts ≤ attempt)) = true
      · obtain ⟨hr, hlast'⟩ : isRetryableError e = true ∧ ¬(maxAttempts ≤ attempt) := by
          simpa using hcond
        have hlast : attempt < maxAttempts := by omega
        rw [runWithRetryAux_retry_eq opts env job maxAttempts attempt rem e houtcome hr hlast]
        obtain ⟨hterm, hcount, hle⟩ := ih (attempt + 1) (by omega) (by omega) (by omega)
        refine ⟨?_, ?_, hle⟩
        · rw [countTerminal_cons, countTerminal_append, h0t, countTerminal_cons, hterm]
          simp [isTerminalEvent]
        · rw [countStarted_cons, countStarted_append, h0s, countStarted_cons]
          simp only [isStartedEvent, if_true, if_false]
          simp
          omega
      · have hcond' : (isRetryableError e && !decide (maxAttempts ≤ attempt)) = false := by
          simpa using hcond
        rw [runWithRetryAux_failed_eq opts env job maxAttempts attempt rem e houtcome hcond']
        refine ⟨?_, ?_, ?_⟩
        · rw [countTerminal_cons, countTerminal_append, h0t, countTerminal_cons,
            countTerminal_nil]
          simp [isTerminalEvent]
        · rw [countStarted_cons, countStarted_append, h0s, countStarted_cons,
            countStarted_nil]
          simp [isStartedEvent]
          omega
        · simp
          omega

/-- Claim C1: for every job and every behaviour of the job-execution
callback, `#runWithRetry` emits exactly one terminal event
(`jobCompleted` xor `jobFailed`), the `attempts` field of the terminal
result equals the number of `jobStarted` events emitted for the job, and
it never exceeds `retries + 1`. -/
theorem c1_terminal_event_accounting (opts : WorkerPoolOptions) (env : JobEnv)
    (job : DownloadJob) :
    countTerminal (runWithRetry opts env job).1 = 1 ∧
      (runWithRetry opts env job).2.attempts = countStarted (runWithRetry opts env job).1 ∧
      (runWithRetry opts env job).2.attempts ≤ opts.retries + 1 := by
  have hmax : maxAttemptsOf opts = opts.retries + 1 := by
    unfold maxAttemptsOf
    omega
  obtain ⟨h1, h2, h3⟩ := runWithRetryAux_invariant opts env job (maxAttemptsOf opts)
    (maxAttemptsOf opts) 1 (by omega) (le_refl 1) (by omega)
  unfold runWithRetry
  exact ⟨h1, by simpa using h2, by omega⟩

/-! ## C4: parser totality -/

/-- Claim C4: the parser is a total function of the input line (the
embedding of `parseYtDlpProgressLine` returns an `Option` for every
string, so no input can raise), and it returns no snapshot for any line
that neither contains the structured marker followed by at least seven
`|`-delimited fields nor contains the `[download]` tag together with an
extractable percent figure. -/
theorem c4_parser_total_none (line : List Char)
    (hstructured : structuredFields line = none)
    (hfallback : containsSub "[download]".data line = false ∨
      findNumPercent line = none) :
    parseYtDlpProgressLine line = none := by
  have hs : parseStructuredYtDlpProgressLine line = none := by
    unfold parseStructuredYtDlpProgressLine
    rw [hstructured]
  unfold parseYtDlpProgressLine
  rw [hs]
  rcases hfallback with h | h
  · rw [h]
    rfl
  · rw [h]
    cases containsSub "[download]".data line <;> rfl

/-- Witness for C4 on a garbage line. -/
theorem c4_parser_total_none_witness :
    structuredFields "hello world 42".data = none ∧
      (containsSub "[download]".data "hello world 42".data = false ∨
        findNumPercent "hello world 42".data = none) ∧
      parseYtDlpProgressLine "hello world 42".data = none :=
  ⟨rfl, Or.inl rfl, c4_parser_total_none "hello world 42".data rfl (Or.inl rfl)⟩

/-! ## C5: percent range -/

theorem fracVal_nonneg (l : List Char) : 0 ≤ fracVal l := by
  unfold fracVal
  positivity

theorem parseExponentPart_nonneg (m : ℚ) (l : List Char) (q : ℚ)
    (hm : 0 ≤ m) (h : parseExponentPart m l = some q) : 0 ≤ q := by
  unfold parseExponentPart at h
  split at h
  · cases h
  · obtain rfl := Option.some.inj h
    exact mul_nonneg hm (zpow_nonneg (by norm_num) _)

theorem parseMantissaTail_nonneg (intPart rest : List Char) (q : ℚ)
    (h : parseMantissaTail intPart rest = some q) : 0 ≤ q := by
  cases rest with
  | nil =>
    simp only [parseMantissaTail] at h
    split at h
    · cases h
    · obtain rfl := Option.some.inj h
      positivity
  | cons c rest2 =>
    simp only [parseMantissaTail] at h
    by_cases hc : c = '.'
    · rw [if_pos hc] at h
      by_cases hempty : intPart = [] ∧ rest2.takeWhile isDigitChar = []
      · rw [if_pos hempty] at h
        cases h
      · rw [if_neg hempty] at h
        cases hdrop : rest2.dropWhile isDigitChar with
        | nil =>
          simp only [hdrop] at h
          obtain rfl := Option.some.inj h
          have := fracVal_nonneg (rest2.takeWhile isDigitChar)
          positivity
        | cons e rest4 =>
          simp only [hdrop] at h
          by_cases he : e = 'e' ∨ e = 'E'
          · rw [if_pos he] at h
            refine parseExponentPart_nonneg _ rest4 q ?_ h
            have := fracVal_nonneg (rest2.takeWhile isDigitChar)
            positivity
          · rw [if_neg he] at h
            cases h
    · rw [if_neg hc] at h
      by_cases he : (c = 'e' ∨ c = 'E') ∧ intPart ≠ []
      · rw [if_pos he] at h
        exact parseExponentPart_nonneg _ rest2 q (by positivity) h
      · rw [if_neg he] at h
        cases h

theorem parseUnsignedNumber_nonneg (l : List Char) (q : ℚ)
    (h : parseUnsignedNumber l = some q) : 0 ≤ q :=
  parseMantissaTail_nonneg _ _ q h

theorem trimChars_mem (l : List Char) (c : Char) (h : c ∈ trimChars l) : c ∈ l := by
  unfold trimChars at h
  rw [List.mem_reverse] at h
  have h2 := (List.dropWhile_sublist _).mem h
  rw [List.mem_reverse] at h2
  exact (List.dropWhile_sublist _).mem h2

theorem mem_of_head?_eq (l : List Char) (c : Char) (h : l.head? = some c) : c ∈ l := by
  cases l with
  | nil => cases h
  | cons a t =>
    obtain rfl : a = c := Option.some.inj h
    exact List.mem_cons_self _ _

/-- A string of digits and dots never parses to a negative number: the
`Number` model can only produce a negative value from a leading minus
sign. -/
theorem jsNumber_digitdot_nonneg (l : List Char) (q : ℚ)
    (hchars : ∀ c ∈ l, isDigitChar c = true ∨ c = '.')
    (h : jsNumber l = some q) : 0 ≤ q := by
  unfold jsNumber at h
  split at h
  · obtain rfl := Option.some.inj h
    exact le_refl (0 : ℚ)
  · split at h
    · exfalso
      have hmem : '-' ∈ l := trimChars_mem l '-' (mem_of_head?_eq _ _ (by assumption))
      rcases hchars '-' hmem with hd | hd
      · exact absurd hd (by decide)
      · exact absurd hd (by decide)
    · split at h
      · exfalso
        have hmem : '+' ∈ l := trimChars_mem l '+' (mem_of_head?_eq _ _ (by assumption))
        rcases hchars '+' hmem with hd | hd
        · exact absurd hd (by decide)
        · exact absurd hd (by decide)
      · exact parseUnsignedNumber_nonneg _ q h

theorem firstDecimalToken_chars :
    ∀ v tok : List Char, firstDecimalToken v = some tok →
      ∀ c ∈ tok, isDigitChar c = true ∨ c = '.' := by
  intro v
  induction v with
  | nil => intro tok h; cases h
  | cons x xs ih =>
    intro tok h c hc
    simp only [firstDecimalToken] at h
    split at h
    · split at h
      · obtain rfl := Option.some.inj h
        split at hc
        · exact Or.inl (List.mem_takeWhile_imp hc)
        · rcases List.mem_append.mp hc with hds | hdot
          · exact Or.inl (List.mem_takeWhile_imp hds)
          · rcases List.mem_cons.mp hdot with rfl | hfs
            · exact Or.inr rfl
            · exact Or.inl (List.mem_takeWhile_imp hfs)
      · obtain rfl := Option.some.inj h
        exact Or.inl (List.mem_takeWhile_imp hc)
    · exact ih tok h c hc

theorem matchNumPercentAt_chars (l tok : List Char)
    (h : matchNumPercentAt l = some tok) :
    ∀ c ∈ tok, isDigitChar c = true ∨ c = '.' := by
  simp only [matchNumPercentAt] at h
  split at h
  · cases h
  · split at h
    · obtain rfl := Option.some.inj h
      intro c hc
      exact Or.inl (List.mem_takeWhile_imp hc)
    · split at h
      · split at h
        · obtain rfl := Option.some.inj h
          intro c hc
          rcases List.mem_append.mp hc with hds | hdot
          · exact Or.inl (List.mem_takeWhile_imp hds)
          · rcases List.mem_cons.mp hdot with rfl | hfs
            · exact Or.inr rfl
            · exact Or.inl (List.mem_takeWhile_imp hfs)
        · cases h
      · cases h

theorem findNumPercent_chars :
    ∀ line tok : List Char, findNumPercent line = some tok →
      ∀ c ∈ tok, isDigitChar c = true ∨ c = '.' := by
  intro line
  induction line with
  | nil => intro tok h; cases h
  | cons x xs ih =>
    intro tok h
    unfold findNumPercent at h
    cases hm : matchNumPercentAt (x :: xs) with
    | some t =>
      rw [hm] at h
      obtain rfl := Option.some.inj h
      exact matchNumPercentAt_chars (x :: xs) _ hm
    | none =>
      rw [hm] at h
      exact ih tok h

theorem parsePercent_nonneg (v : Option (List Char)) (q : ℚ)
    (h : parsePercent v = some q) : 0 ≤ q := by
  cases v with
  | none => cases h
  | some l =>
    simp only [parsePercent] at h
    split at h
    · cases h
    · cases htok : firstDecimalToken l with
      | none =>
        simp only [htok] at h
        exact Option.noConfusion h
      | some tok =>
        simp only [htok] at h
        exact jsNumber_digitdot_nonneg tok q (firstDecimalToken_chars l tok htok) h

/-- The byte-count derivation stays within [0, 100] when its inputs do. -/
theorem derivedPercent_bounds (p0 dB tB : Option ℚ) (p' : ℚ)
    (hmatch : derivedPercent p0 dB tB = some p')
    (hq : ∀ q, p0 = some q → 0 ≤ q ∧ q ≤ 100)
    (hdt : ∀ d t, dB = some d → tB = some t → 0 ≤ d ∧ d ≤ t) :
    0 ≤ p' ∧ p' ≤ 100 := by
  cases p0 with
  | some q =>
    simp only [derivedPercent] at hmatch
    obtain rfl := Option.some.inj hmatch
    exact hq _ rfl
  | none =>
    cases dB with
    | none =>
      simp only [derivedPercent] at hmatch
      exact Option.noConfusion hmatch
    | some d =>
      cases tB with
      | none =>
        simp only [derivedPercent] at hmatch
        exact Option.noConfusion hmatch
      | some t =>
        simp only [derivedPercent] at hmatch
        split at hmatch
        · obtain rfl := Option.some.inj hmatch
          obtain ⟨hd0, hdle⟩ := hdt d t rfl rfl
          have ht0 : (0 : ℚ) < t := by assumption
          constructor
          · positivity
          · have hdiv : d / t ≤ 1 := (div_le_one ht0).mpr hdle
            nlinarith
        · cases hmatch

/-- The percent pipeline stays within [0, 100] when the inputs do: any
present percent-field value is in range, and any byte-count pair satisfies
0 ≤ downloaded ≤ total. -/
theorem structuredPercent_bounds (statusRaw : List Char)
    (p0 dB tB : Option ℚ) (p : ℚ)
    (h : structuredPercent statusRaw p0 dB tB = some p)
    (hq : ∀ q, p0 = some q → 0 ≤ q ∧ q ≤ 100)
    (hdt : ∀ d t, dB = some d → tB = some t → 0 ≤ d ∧ d ≤ t) :
    0 ≤ p ∧ p ≤ 100 := by
  unfold structuredPercent at h
  split at h
  · cases hinner : derivedPercent p0 dB tB with
    | some p1 =>
      rw [hinner] at h
      have hred : (Option.some p1).orElse (fun _ => some (100 : ℚ)) = some p1 := rfl
      rw [hred] at h
      obtain rfl := Option.some.inj h
      exact derivedPercent_bounds p0 dB tB _ hinner hq hdt
    | none =>
      rw [hinner] at h
      have hred : (Option.none : Option ℚ).orElse (fun _ => some (100 : ℚ))
          = some 100 := rfl
      rw [hred] at h
      obtain rfl : (100 : ℚ) = p := Option.some.inj h
      norm_num
  · exact derivedPercent_bounds p0 dB tB p h hq hdt

/-- What the structured parser returns once the field split succeeded. -/
theorem parseStructured_eq (line : List Char) (fields : List (List Char))
    (h : structuredFields line = some fields) :
    parseStructuredYtDlpProgressLine line = some
      { status := .running,
        percent := structuredPercent (lowerChars (trimChars (fields.headD [])))
          (parsePercent (fields.get? 6)) (parseNullableNumber (fields.get? 1))
          ((parseNullableNumber (fields.get? 2)).orElse fun _ =>
            parseNullableNumber (fields.get? 3)),
        totalBytes := (parseNullableNumber (fields.get? 2)).orElse fun _ =>
          parseNullableNumber (fields.get? 3),
        speedBps := parseNullableNumber (fields.get? 4),
        etaSec := parseNullableNumber (fields.get? 5),
        downloadedBytes := parseNullableNumber (fields.get? 1) } := by
  unfold parseStructuredYtDlpProgressLine
  rw [h]

/-- The side condition of the amended C5: the figures the line carries are
themselves in range — the percent token (when present) is at most 100 and
a derivable byte-count pair satisfies 0 ≤ downloaded ≤ total. -/
def percentFiguresInRange (line : List Char) : Prop :=
  (∀ fields, structuredFields line = some fields →
    (∀ q, parsePercent (fields.get? 6) = some q → q ≤ 100) ∧
      (∀ d t, parseNullableNumber (fields.get? 1) = some d →
        ((parseNullableNumber (fields.get? 2)).orElse fun _ =>
          parseNullableNumber (fields.get? 3)) = some t →
        0 ≤ d ∧ d ≤ t)) ∧
    (∀ tok q, findNumPercent line = some tok → jsNumber tok = some q → q ≤ 100)

/-- Claim C5 (amended): the parser does not clamp, so a percent value in a
returned snapshot is within [0, 100] exactly when the figures on the line
are in range (percent token ≤ 100; derivable byte counts with
0 ≤ downloaded ≤ total); under those conditions every present percent
satisfies 0 ≤ p ≤ 100 (nonnegativity of extracted tokens is
unconditional). -/
theorem c5_percent_in_range (line : List Char) (snap : DownloadProgress) (p : ℚ)
    (hparse : parseYtDlpProgressLine line = some snap)
    (hp : snap.percent = some p)
    (hrange : percentFiguresInRange line) :
    0 ≤ p ∧ p ≤ 100 := by
  unfold parseYtDlpProgressLine at hparse
  cases hfields : structuredFields line with
  | some fields =>
    rw [parseStructured_eq line fields hfields] at hparse
    obtain rfl := Option.some.inj hparse
    dsimp only at hp
    obtain ⟨hq100, hdt⟩ := hrange.1 fields hfields
    refine structuredPercent_bounds _ _ _ _ p hp ?_ hdt
    intro q hqe
    exact ⟨parsePercent_nonneg _ q hqe, hq100 q hqe⟩
  | none =>
    have hs : parseStructuredYtDlpProgressLine line = none := by
      unfold parseStructuredYtDlpProgressLine
      rw [hfields]
    rw [hs] at hparse
    cases hcont : containsSub "[download]".data line with
    | false =>
      rw [hcont] at hparse
      cases hparse
    | true =>
      rw [hcont] at hparse
      cases htok : findNumPercent line with
      | none =>
        rw [htok] at hparse
        cases hparse
      | some tok =>
        rw [htok] at hparse
        obtain rfl := Option.some.inj hparse
        dsimp only at hp
        refine ⟨jsNumber_digitdot_nonneg tok p (findNumPercent_chars line tok htok) hp,
          hrange.2 tok p htok hp⟩

/-- Claim C5 as stated is false at a concrete input: the fallback line
"[download] 250%" is accepted with percent 250, outside [0, 100] (the
parser does not clamp; a structured line with downloaded = -5 and
total = 2 likewise yields percent -250). -/
theorem c5_counterexample :
    (parseYtDlpProgressLine "[download] 250%".data).map (fun s => s.percent)
        = some (some 250) ∧
      ¬((250 : ℚ) ≤ 100) := by
  constructor
  · rfl
  · norm_num

/-- Witness for C5 (amended) on an in-range fallback line. -/
theorem c5_percent_in_range_witness :
    parseYtDlpProgressLine "[download] 42%".data = some
        { status := .running, percent := some 42, totalBytes := none,
          speedBps := none, etaSec := none, downloadedBytes := none } ∧
      percentFiguresInRange "[download] 42%".data ∧
      (0 ≤ (42 : ℚ) ∧ (42 : ℚ) ≤ 100) := by
  have hparse : parseYtDlpProgressLine "[download] 42%".data = some
      { status := .running, percent := some 42, totalBytes := none,
        speedBps := none, etaSec := none, downloadedBytes := none } := by rfl
  have hrange : percentFiguresInRange "[download] 42%".data := by
    constructor
    · intro fields hfields
      cases hfields
    · intro tok q htok hq
      obtain rfl : "42".data = tok := Option.some.inj htok
      obtain rfl : (42 : ℚ) = q := Option.some.inj hq
      norm_num
  exact ⟨hparse, hrange,
    c5_percent_in_range "[download] 42%".data _ 42 hparse rfl hrange⟩

/-! ## C6: derived percent and the finished default -/

theorem structuredPercent_derived (statusRaw : List Char) (d t : ℚ) (ht : 0 < t) :
    structuredPercent statusRaw none (some d) (some t) = some (d / t * 100) := by
  have hd : derivedPercent none (some d) (some t) = some (d / t * 100) := by
    simp only [derivedPercent]
    rw [if_pos ht]
  unfold structuredPercent
  rw [hd]
  split <;> rfl

theorem derivedPercent_none (dB tB : Option ℚ)
    (hfail : dB = none ∨ tB = none ∨ (∀ t, tB = some t → ¬0 < t)) :
    derivedPercent none dB tB = none := by
  rcases hfail with rfl | rfl | hno
  · cases tB <;> rfl
  · cases dB <;> rfl
  · cases dB with
    | none => cases tB <;> rfl
    | some d =>
      cases tB with
      | none => rfl
      | some t =>
        simp only [derivedPercent]
        rw [if_neg (hno t rfl)]

theorem structuredPercent_finished_default (p0 dB tB : Option ℚ)
    (hder : derivedPercent p0 dB tB = none) :
    structuredPercent "finished".data p0 dB tB = some 100 := by
  unfold structuredPercent
  rw [if_pos rfl, hder]
  rfl

/-- Claim C6: on a structured line whose percent field yields nothing,
(1) when both byte counts are present with a positive total the snapshot's
percent is exactly `downloaded/total*100` (exact rational arithmetic in
the model; the source computes the same expression in floating point),
and (2) when the status field is `finished` and the derivation cannot
apply, percent defaults to 100. -/
theorem c6_structured_percent_derivation (line : List Char)
    (fields : List (List Char))
    (hfields : structuredFields line = some fields) :
    (∀ d t, parsePercent (fields.get? 6) = none →
        parseNullableNumber (fields.get? 1) = some d →
        ((parseNullableNumber (fields.get? 2)).orElse fun _ =>
          parseNullableNumber (fields.get? 3)) = some t →
        0 < t →
        ∃ snap, parseYtDlpProgressLine line = some snap ∧
          snap.percent = some (d / t * 100)) ∧
      (lowerChars (trimChars (fields.headD [])) = "finished".data →
        parsePercent (fields.get? 6) = none →
        (parseNullableNumber (fields.get? 1) = none ∨
          ((parseNullableNumber (fields.get? 2)).orElse fun _ =>
            parseNullableNumber (fields.get? 3)) = none ∨
          (∀ t, ((parseNullableNumber (fields.get? 2)).orElse fun _ =>
            parseNullableNumber (fields.get? 3)) = some t → ¬0 < t)) →
        ∃ snap, parseYtDlpProgressLine line = some snap ∧
          snap.percent = some 100) := by
  have hps := parseStructured_eq line fields hfields
  have htop : parseYtDlpProgressLine line = parseStructuredYtDlpProgressLine line := by
    unfold parseYtDlpProgressLine
    rw [hps]
  constructor
  · intro d t hp0 hd ht htpos
    refine ⟨_, by rw [htop, hps], ?_⟩
    dsimp only
    rw [hp0, hd, ht]
    exact structuredPercent_derived _ d t htpos
  · intro hfin hp0 hfail
    refine ⟨_, by rw [htop, hps], ?_⟩
    dsimp only
    rw [hfin, hp0]
    exact structuredPercent_finished_default none _ _ (derivedPercent_none _ _ hfail)

/-- Witness for C6 on a synthetic structured line with downloaded 50 of
total 200 bytes and no percent field: the derived percent is
50/200·100 = 25. -/
theorem c6_structured_percent_derivation_witness :
    structuredFields "[vidler-progress] downloading|50|200|NA|NA|NA|NA".data =
        some ["downloading".data, "50".data, "200".data, "NA".data, "NA".data,
          "NA".data, "NA".data] ∧
      parsePercent (["downloading".data, "50".data, "200".data, "NA".data,
        "NA".data, "NA".data, "NA".data].get? 6) = none ∧
      parseNullableNumber (["downloading".data, "50".data, "200".data, "NA".data,
        "NA".data, "NA".data, "NA".data].get? 1) = some 50 ∧
      ((parseNullableNumber (["downloading".data, "50".data, "200".data, "NA".data,
          "NA".data, "NA".data, "NA".data].get? 2)).orElse fun _ =>
        parseNullableNumber (["downloading".data, "50".data, "200".data, "NA".data,
          "NA".data, "NA".data, "NA".data].get? 3)) = some 200 ∧
      (0 : ℚ) < 200 ∧
      (∃ snap, parseYtDlpProgressLine
          "[vidler-progress] downloading|50|200|NA|NA|NA|NA".data = some snap ∧
        snap.percent = some ((50 : ℚ) / 200 * 100)) :=
  ⟨rfl, rfl, rfl, rfl, by norm_num,
    (c6_structured_percent_derivation
        "[vidler-progress] downloading|50|200|NA|NA|NA|NA".data
        ["downloading".data, "50".data, "200".data, "NA".data, "NA".data,
          "NA".data, "NA".data] rfl).1 50 200 rfl rfl rfl (by norm_num)⟩

end Vidler
